import Mathlib

/-!
Shallow embedding of the core of the `brane_v2` repository, and proofs of the
frozen claims about it.

The embedding covers:
* `HierarchicalMemory` (`backend/core/neuron/neuron.py`): the four-layer memory,
  `add_interaction`, `_compress_interactions`, `get_context`;
* `MemoryConsolidator` (`backend/core/neuron/memory_consolidator.py`):
  `should_consolidate`, `consolidate` and its five stages, with the LLM and the
  JSON parser modelled as an oracle giving each stage's outcome;
* `Neuron.chat` (`backend/core/neuron/neuron.py`): the turn state machine, with
  the points at which the source can raise modelled as an injected failure;
* `check_rate_limit` and the execute route (`backend/api/routes/tools.py`);
* `ToolPermission.is_valid` (`backend/models/tool_system.py`);
* `FileOpsTool` (`backend/tools/builtin/file_ops.py`) over a lexical path model
  and an association-list file system;
* `LLMBroker` call-argument construction (`backend/core/llm/broker.py`).

Machine integers do not occur on the modelled paths; Python `datetime` values
are modelled as `Nat` seconds (ISO strings are carried opaquely where the code
stores them), and Python truthiness of optional integers is modelled explicitly.
-/

/- ============================================================ -/
/- Hierarchical memory (backend/core/neuron/neuron.py)          -/
/- ============================================================ -/

/-- One entry of L1 working memory: the dict built in `add_interaction`. -/
structure Interaction where
  user : String
  assistant : String
  context : String
  metadata : List (String × String)
  timestamp : String
deriving DecidableEq, Repr

/-- One entry of L2 episodic memory.  The source stores plain dicts; the
variants are the dict shapes actually produced: `emptyDict` for the `{}`
returned by `_compress_interactions` on an empty list, `compact` for its
normal result, `llmSummary` for the consolidator's stage-1 append, and
`consolidated` for entries parsed from the stage-2 model output. -/
inductive Episode where
  | emptyDict
  | compact (summary : String) (tsFirst tsLast : String)
      (interactionCount : Nat) (createdAt : String)
  | llmSummary (summary : String) (timestamp : String) (interactionCount : Nat)
  | consolidated (summary : String) (importance : Int)
deriving DecidableEq, Repr

/-- L3 semantic memory: a Python dict with up to the three keys
`"entities"`, `"facts"`, `"preferences"`; a `none` field means the key is
absent (`setdefault` in the source materialises it). -/
structure SemanticMemory where
  entities : Option (List (String × String))
  facts : Option (List String)
  preferences : Option (List (String × String))
deriving DecidableEq, Repr

/-- `len(semantic_memory)`: the number of keys present in the dict. -/
def SemanticMemory.size (s : SemanticMemory) : Nat :=
  (if s.entities.isSome then 1 else 0)
    + (if s.facts.isSome then 1 else 0)
    + (if s.preferences.isSome then 1 else 0)

/-- A workflow dict parsed from the consolidator's stage-4 model output. -/
structure Workflow where
  name : String
  steps : List String
  frequency : String
deriving DecidableEq, Repr

/-- L4 procedural memory: a Python dict with at most the key `"workflows"`. -/
structure ProceduralMemory where
  workflows : Option (List Workflow)
deriving DecidableEq, Repr

/-- `len(procedural_memory)`: the number of keys present. -/
def ProceduralMemory.size (p : ProceduralMemory) : Nat :=
  if p.workflows.isSome then 1 else 0

/-- The four-layer memory object owned by one Neuron. -/
structure HierarchicalMemory where
  workingMemory : List Interaction
  episodicMemory : List Episode
  semanticMemory : SemanticMemory
  proceduralMemory : ProceduralMemory
deriving DecidableEq, Repr

/-- The state `HierarchicalMemory.__init__` produces: all four layers empty. -/
def HierarchicalMemory.fresh : HierarchicalMemory :=
  ⟨[], [], ⟨none, none, none⟩, ⟨none⟩⟩

/-- Python `lst[-k:]` for a non-negative `k`.  For `k = 0` this is the whole
list (`lst[-0:] == lst[0:]`), not the empty list. -/
def pySliceLast {α : Type} (l : List α) (k : Nat) : List α :=
  if k = 0 then l else l.drop (l.length - k)

/-- Python `lst[:-k]` for `k > 0` combined with our use sites: the first
`len - k` elements. -/
def pyDropLast {α : Type} (l : List α) (k : Nat) : List α :=
  l.take (l.length - k)

/-- `HierarchicalMemory._compress_interactions`: deterministic syntactic
summary of a block of interactions — no LLM call.  On the empty list the
source returns the empty dict. -/
def compressInteractions (interactions : List Interaction) (createdAt : String) :
    Episode :=
  match interactions with
  | [] => .emptyDict
  | first :: _ =>
    let userQuestions := interactions.map (fun i => i.user.take 200)
    let summary :=
      "Conversation covering: " ++ String.intercalate ", " (userQuestions.take 3)
        ++ "..."
    .compact summary first.timestamp (interactions.getLastD first).timestamp
      interactions.length createdAt

/-- `HierarchicalMemory.add_interaction`: append the new interaction to L1;
if L1 then holds more than 10 entries, compress the oldest `len - 10` into a
single L2 entry and keep the last 10.  `timestamp` stands for
`datetime.utcnow().isoformat()`. -/
def addInteraction (m : HierarchicalMemory) (userMsg assistantMsg context : String)
    (metadata : List (String × String)) (timestamp : String) : HierarchicalMemory :=
  let interaction : Interaction := ⟨userMsg, assistantMsg, context, metadata, timestamp⟩
  let working := m.workingMemory ++ [interaction]
  if working.length > 10 then
    let oldInteractions := pyDropLast working 10
    let summary := compressInteractions oldInteractions timestamp
    { m with
      episodicMemory := m.episodicMemory ++ [summary],
      workingMemory := pySliceLast working 10 }
  else
    { m with workingMemory := working }

/-- The line `f"User: {i['user']}\nAssistant: {i['assistant']}"` built for one
working-memory item in `get_context`. -/
def contextLine (i : Interaction) : String :=
  "User: " ++ i.user ++ "\nAssistant: " ++ i.assistant

/-- `HierarchicalMemory.get_context`: the method reads
`working_memory[-max_items:]`, formats each item, and joins with blank lines.
It is embedded as state → result × state; the returned state is the object
after the call (the method performs no writes, which the embedding makes
explicit and the theorems assert). -/
def getContext (m : HierarchicalMemory) (maxItems : Nat) :
    String × HierarchicalMemory :=
  let contextItems := (pySliceLast m.workingMemory maxItems).map contextLine
  (String.intercalate "\n\n" contextItems, m)

/- ============================================================ -/
/- Memory consolidator (backend/core/neuron/memory_consolidator.py) -/
/- ============================================================ -/

/-- Outcome of one consolidation stage's interaction with the model: the
`_ask_llm` call raised (`exn`), the call returned text whose `json.loads`
failed (`parseFail`), or the text parsed to structured data (`ok`).  In the
source the `_ask_llm` call stands outside each stage's `try`, while
`json.loads` and the layer update stand inside it. -/
inductive StageResult (α : Type) where
  | exn
  | parseFail
  | ok (a : α)
deriving DecidableEq, Repr

/-- The knowledge-graph dict parsed in stage 3; each key may be absent. -/
structure Knowledge where
  entities : Option (List (String × String))
  facts : Option (List String)
  preferences : Option (List (String × String))
deriving DecidableEq, Repr

/-- One contradiction entry parsed in stage 5. -/
structure Contradiction where
  fact1 : String
  fact2 : String
  resolution : String
deriving DecidableEq, Repr

/-- The dict parsed in stage 5. -/
structure FactResolution where
  contradictions : List Contradiction
  validatedFacts : List String
  outdatedFacts : List String
deriving DecidableEq, Repr

/-- The model/parser outcomes for the five stages of one `consolidate()` run.
Stage 1 performs no JSON parse, so its only failure is a raised model call
(`none`). -/
structure ConsolidationOracle where
  s1 : Option String
  s2 : StageResult (List Episode)
  s3 : StageResult Knowledge
  s4 : StageResult (List Workflow)
  s5 : StageResult FactResolution
deriving DecidableEq, Repr

/-- Python `dict` insert-or-replace for one key/value pair (insertion order
preserved, existing key overwritten in place). -/
def insertAssoc (l : List (String × String)) (kv : String × String) :
    List (String × String) :=
  if l.any (fun p => p.1 == kv.1) then
    l.map (fun p => if p.1 == kv.1 then (p.1, kv.2) else p)
  else l ++ [kv]

/-- Python `base.update(updates)` on string dicts. -/
def updateAssoc (base updates : List (String × String)) :
    List (String × String) :=
  updates.foldl insertAssoc base

/-- Stage 1, `_consolidator._compress_working_memory`: below 5 L1 entries the
stage returns without calling the model; otherwise a raised model call
propagates (`none`), and on success the summary of `working_memory[-10:]` is
appended to L2 and L1 is cut to its last 5 entries. -/
def compressWorkingMemory (m : HierarchicalMemory) (s1 : Option String)
    (nowIso : String) : Option HierarchicalMemory :=
  if m.workingMemory.length < 5 then some m
  else
    match s1 with
    | none => none
    | some summary =>
      let recent := pySliceLast m.workingMemory 10
      some { m with
        episodicMemory :=
          m.episodicMemory ++ [.llmSummary summary nowIso recent.length],
        workingMemory := pySliceLast m.workingMemory 5 }

/-- Stage 2, `_consolidate_episodic_memory`: below 11 L2 entries the stage
returns without calling the model; a raised model call propagates; a JSON
parse failure is logged and leaves L2 untouched; a successful parse replaces
L2 with the first 20 parsed entries. -/
def consolidateEpisodicMemory (m : HierarchicalMemory)
    (s2 : StageResult (List Episode)) : Option HierarchicalMemory :=
  if m.episodicMemory.length ≤ 10 then some m
  else
    match s2 with
    | .exn => none
    | .parseFail => some m
    | .ok consolidated => some { m with episodicMemory := consolidated.take 20 }

/-- Stage 3, `_extract_semantic_knowledge`: the model is always called; a
raised call propagates; a parse failure leaves L3 untouched; on success each
present key of the parsed knowledge is merged into L3 (`setdefault` then
`update`/`extend`). -/
def extractSemanticKnowledge (m : HierarchicalMemory)
    (s3 : StageResult Knowledge) : Option HierarchicalMemory :=
  match s3 with
  | .exn => none
  | .parseFail => some m
  | .ok k =>
    let sem := m.semanticMemory
    let sem :=
      match k.entities with
      | none => sem
      | some es => { sem with entities := some (updateAssoc (sem.entities.getD []) es) }
    let sem :=
      match k.facts with
      | none => sem
      | some fs => { sem with facts := some (sem.facts.getD [] ++ fs) }
    let sem :=
      match k.preferences with
      | none => sem
      | some ps =>
        { sem with preferences := some (updateAssoc (sem.preferences.getD []) ps) }
    some { m with semanticMemory := sem }

/-- Stage 4, `_learn_procedures`: below 10 L1 entries the stage returns
without calling the model; a raised call propagates; a parse failure leaves
L4 untouched; on success the parsed workflows are appended under the
`"workflows"` key. -/
def learnProcedures (m : HierarchicalMemory)
    (s4 : StageResult (List Workflow)) : Option HierarchicalMemory :=
  if m.workingMemory.length < 10 then some m
  else
    match s4 with
    | .exn => none
    | .parseFail => some m
    | .ok ws =>
      some { m with
        proceduralMemory := ⟨some (m.proceduralMemory.workflows.getD [] ++ ws)⟩ }

/-- Stage 5, `_resolve_contradictions`: below 5 facts the stage returns
without calling the model; a raised call propagates; a parse failure leaves
the fact set untouched; on success the fact set is replaced by the validated
facts followed by the proposed resolutions. -/
def resolveContradictions (m : HierarchicalMemory)
    (s5 : StageResult FactResolution) : Option HierarchicalMemory :=
  let facts := m.semanticMemory.facts.getD []
  if facts.length < 5 then some m
  else
    match s5 with
    | .exn => none
    | .parseFail => some m
    | .ok r =>
      let validated := r.validatedFacts
      let resolutions := r.contradictions.map (fun c => c.resolution)
      some { m with
        semanticMemory :=
          { m.semanticMemory with facts := some (validated ++ resolutions) } }

/-- The mutable fields of `MemoryConsolidator` plus its two thresholds.
Timestamps are `Nat` seconds. -/
structure ConsolidatorState where
  consolidationThreshold : Nat
  maxL2Size : Nat
  lastConsolidation : Nat
  interactionsSinceConsolidation : Nat
deriving DecidableEq, Repr

/-- `MemoryConsolidator.record_interaction`. -/
def recordInteraction (c : ConsolidatorState) : ConsolidatorState :=
  { c with interactionsSinceConsolidation := c.interactionsSinceConsolidation + 1 }

/-- `MemoryConsolidator.should_consolidate`: interaction threshold reached,
or L2 above its bound, or more than 24 hours since the last run. -/
def shouldConsolidate (c : ConsolidatorState) (m : HierarchicalMemory)
    (now : Nat) : Bool :=
  decide (c.interactionsSinceConsolidation ≥ c.consolidationThreshold)
    || decide (m.episodicMemory.length > c.maxL2Size)
    || decide (now - c.lastConsolidation > 86400)

/-- The per-layer entry counts recorded in the stats dict. -/
structure LayerCounts where
  l1 : Nat
  l2 : Nat
  l3 : Nat
  l4 : Nat
deriving DecidableEq, Repr

def layerCounts (m : HierarchicalMemory) : LayerCounts :=
  ⟨m.workingMemory.length, m.episodicMemory.length,
    m.semanticMemory.size, m.proceduralMemory.size⟩

/-- The stats dict returned by `consolidate()`: the `after` counts are added
only on success, and `errorDetail` only on failure. -/
structure ConsolidationStats where
  before : LayerCounts
  after : Option LayerCounts
  success : Bool
  errorDetail : Option String
  timestamp : Nat
deriving DecidableEq, Repr

/-- `MemoryConsolidator.consolidate`: run the five stages in order inside one
`try`; the first stage whose model call raises aborts the run — the `except`
branch marks the stats failed (keeping the effects of the completed stages)
and leaves the counter and timestamp untouched.  If all five stages complete,
the after-counts are recorded, the timestamp is set to `now` and the
interaction counter reset.  The function is total: no exception escapes to
the caller. -/
def consolidate (c : ConsolidatorState) (now : Nat) (nowIso : String)
    (m : HierarchicalMemory) (o : ConsolidationOracle) :
    ConsolidatorState × HierarchicalMemory × ConsolidationStats :=
  let before := layerCounts m
  match compressWorkingMemory m o.s1 nowIso with
  | none => (c, m, ⟨before, none, false, some "stage 1 model call raised", now⟩)
  | some m1 =>
    match consolidateEpisodicMemory m1 o.s2 with
    | none => (c, m1, ⟨before, none, false, some "stage 2 model call raised", now⟩)
    | some m2 =>
      match extractSemanticKnowledge m2 o.s3 with
      | none => (c, m2, ⟨before, none, false, some "stage 3 model call raised", now⟩)
      | some m3 =>
        match learnProcedures m3 o.s4 with
        | none => (c, m3, ⟨before, none, false, some "stage 4 model call raised", now⟩)
        | some m4 =>
          match resolveContradictions m4 o.s5 with
          | none =>
            (c, m4, ⟨before, none, false, some "stage 5 model call raised", now⟩)
          | some m5 =>
            ({ c with lastConsolidation := now, interactionsSinceConsolidation := 0 },
              m5, ⟨before, some (layerCounts m5), true, none, now⟩)

/- ============================================================ -/
/- Neuron chat turn (backend/core/neuron/neuron.py)             -/
/- ============================================================ -/

/-- `NeuronState`. -/
inductive NeuronState where
  | idle
  | thinking
  | executing
  | error
deriving DecidableEq, Repr

/-- The points inside `Neuron.chat`'s `try` block at which the source can
raise before the turn is appended to memory: the retrieval search
(`self.axon.search`), fetching the tool definitions
(`get_tools_for_llm`, part of prompt construction), and the broker stream —
`streamAt k` raises after `k` chunks were already yielded to the caller. -/
inductive ChatFailure where
  | ragSearch
  | toolFetch
  | streamAt (k : Nat)
deriving DecidableEq, Repr

/-- The observable outcome of one `chat` turn: the final `Neuron.state`, the
sequence of fragments yielded to the caller, the memory and consolidator
state after the turn, and whether a consolidation task was scheduled. -/
structure ChatOutcome where
  state : NeuronState
  fragments : List String
  memory : HierarchicalMemory
  consolidator : ConsolidatorState
  consolidationScheduled : Bool
deriving DecidableEq, Repr

/-- The terminal fragment `f"\n\n[Error: {str(e)}]"` yielded by the `except`
branch of `chat`. -/
def errFragment (msg : String) : String := "\n\n[Error: " ++ msg ++ "]"

/-- `Neuron.chat`: sets state to `thinking`, then inside one `try` builds the
prompt, streams the broker's chunks to the caller while accumulating them,
appends the completed turn to memory, records the interaction, schedules a
background consolidation when `should_consolidate()` holds, and sets state to
`idle`.  The `except` branch sets state to `error` and yields the single
terminal error fragment; nothing after the failing point runs.  `chunks` is
the broker's stream, `failure` injects a raise at one of the modelled points
(with `failureMsg` its `str(e)`), and `nowSec`/`timestamp` stand for the
clock readings. -/
def chat (mem : HierarchicalMemory) (cons : ConsolidatorState)
    (userMessage context : String) (metadata : List (String × String))
    (timestamp : String) (nowSec : Nat) (chunks : List String)
    (failure : Option ChatFailure) (failureMsg : String) : ChatOutcome :=
  match failure with
  | some .ragSearch => ⟨.error, [errFragment failureMsg], mem, cons, false⟩
  | some .toolFetch => ⟨.error, [errFragment failureMsg], mem, cons, false⟩
  | some (.streamAt k) =>
    ⟨.error, chunks.take k ++ [errFragment failureMsg], mem, cons, false⟩
  | none =>
    let fullResponse := String.join chunks
    let mem' := addInteraction mem userMessage fullResponse context metadata timestamp
    let cons' := recordInteraction cons
    let scheduled := shouldConsolidate cons' mem' nowSec
    ⟨.idle, chunks, mem', cons', scheduled⟩

/- ============================================================ -/
/- Tool registry records (backend/models/tool_system.py)        -/
/- ============================================================ -/

/-- `PermissionScope`. -/
inductive PermissionScope where
  | read
  | write
  | execute
  | delete
  | admin
deriving DecidableEq, Repr

/-- `ExecutionStatus`. -/
inductive ExecutionStatus where
  | pending
  | running
  | success
  | failed
  | cancelled
  | rollback
deriving DecidableEq, Repr

/-- The fields of the `Tool` registry row read on the modelled paths. -/
structure Tool where
  name : String
  privacyTier : Nat
  requiresConfirmation : Bool
  dangerous : Bool
  rateLimitPerMinute : Option Nat
  rateLimitPerHour : Option Nat
  estimatedDurationMs : Option Nat
  enabled : Bool
  deprecated : Bool
deriving DecidableEq, Repr

/-- `Tool.is_available`. -/
def Tool.isAvailable (t : Tool) : Bool := t.enabled && !t.deprecated

/-- Python truthiness of an optional integer column: `None` and `0` are
falsy. -/
def truthyNat (o : Option Nat) : Bool :=
  match o with
  | none => false
  | some n => !(n == 0)

/-- The fields of a `ToolPermission` row read on the modelled paths.
Timestamps are `Nat` seconds. -/
structure ToolPermission where
  scopes : List PermissionScope
  expiresAt : Option Nat
  maxDailyUses : Option Nat
  maxTotalUses : Option Nat
  currentUses : Nat
  requireConfirmation : Bool
  active : Bool
  revokedAt : Option Nat
deriving DecidableEq, Repr

/-- `ToolPermission.is_valid`: inactive or revoked fails; a set expiry in the
past fails; a truthy total-use cap that `current_uses` has reached fails;
otherwise valid.  (`max_daily_uses` is never consulted.) -/
def ToolPermission.isValid (p : ToolPermission) (now : Nat) : Bool :=
  if !p.active || p.revokedAt.isSome then false
  else if (match p.expiresAt with | some e => decide (now > e) | none => false) then
    false
  else if truthyNat p.maxTotalUses
      && decide (p.currentUses ≥ p.maxTotalUses.getD 0) then false
  else true

/-- The validity predicate as the claim states it, over the same record plus
the number of uses made during the current day (a quantity the source schema
does not track): active, not revoked, not expired, under the daily cap and
under the total cap. -/
def claimPermissionValid (p : ToolPermission) (dailyUses : Nat) (now : Nat) : Bool :=
  p.active && p.revokedAt.isNone
    && !(match p.expiresAt with | some e => decide (now > e) | none => false)
    && (match p.maxDailyUses with | some d => decide (dailyUses < d) | none => true)
    && (match p.maxTotalUses with | some u => decide (p.currentUses < u) | none => true)

/- ============================================================ -/
/- Rate limiting (backend/api/routes/tools.py, check_rate_limit) -/
/- ============================================================ -/

/-- A `ToolRateLimit` row: per-(neuron, tool) fixed windows with counts.
Window starts and `lastExecution` are `Nat` seconds. -/
structure ToolRateLimit where
  minuteWindow : Nat
  hourWindow : Nat
  dayWindow : Nat
  minuteCount : Nat
  hourCount : Nat
  dayCount : Nat
  lastExecution : Option Nat
deriving DecidableEq, Repr

/-- The row `check_rate_limit` creates when none exists: all three windows
start now, counts at their column defaults of 0. -/
def freshRateLimit (now : Nat) : ToolRateLimit :=
  ⟨now, now, now, 0, 0, 0, none⟩

/-- The lazy roll-forward at the top of `check_rate_limit`: each window whose
elapsed time strictly exceeds its span (60 s / 3600 s / 86400 s) is restarted
at `now` with count 0. -/
def resetStaleWindows (now : Nat) (rl : ToolRateLimit) : ToolRateLimit :=
  let rl :=
    if now - rl.minuteWindow > 60 then
      { rl with minuteWindow := now, minuteCount := 0 } else rl
  let rl :=
    if now - rl.hourWindow > 3600 then
      { rl with hourWindow := now, hourCount := 0 } else rl
  if now - rl.dayWindow > 86400 then
    { rl with dayWindow := now, dayCount := 0 } else rl

/-- `if tool.rate_limit_per_X and count >= tool.rate_limit_per_X`: a ceiling
of `None` or `0` is falsy and never hit. -/
def ceilingHit (limit : Option Nat) (count : Nat) : Bool :=
  match limit with
  | none => false
  | some l => !(l == 0) && decide (count ≥ l)

/-- `check_rate_limit`: fetch or create the row, roll stale windows forward,
compare the minute and hour counts against the tool's ceilings, and only when
neither ceiling is hit increment all three counters and stamp
`last_execution`.  Returns the allow/deny verdict together with the row as
the function leaves it. -/
def checkRateLimit (now : Nat) (t : Tool) (rl0 : Option ToolRateLimit) :
    Bool × ToolRateLimit :=
  let rl := rl0.getD (freshRateLimit now)
  let rl := resetStaleWindows now rl
  if ceilingHit t.rateLimitPerMinute rl.minuteCount then (false, rl)
  else if ceilingHit t.rateLimitPerHour rl.hourCount then (false, rl)
  else
    (true, { rl with
      minuteCount := rl.minuteCount + 1,
      hourCount := rl.hourCount + 1,
      dayCount := rl.dayCount + 1,
      lastExecution := some now })

/- ============================================================ -/
/- Execute route (backend/api/routes/tools.py)                  -/
/- ============================================================ -/

/-- A tool's output as stored in `output_result`: either the simulated dict
`BaseToolProvider.dry_run` returns, or the payload of a real execution. -/
inductive ToolOutput where
  | dryRunSim (toolName : String) (paramsRepr : String)
  | real (payload : String)
deriving DecidableEq, Repr

/-- One execute request together with the outcomes of the collaborators the
route consults: `paramsValid` is the verdict of
`tool_validator.validate_parameters`, `providerOk` whether provider lookup
and execution complete without raising, `realOutput` the payload a real
(non-dry) execution produces, and `paramsRepr` the textual form of the input
parameters. -/
structure ExecRequest where
  dryRun : Bool
  paramsValid : Bool
  providerOk : Bool
  realOutput : String
  paramsRepr : String
deriving DecidableEq, Repr

/-- The fields of the `ToolExecution` record the claims observe. -/
structure ExecRecord where
  dryRun : Bool
  status : ExecutionStatus
  sandboxId : Option Nat
  outputResult : Option ToolOutput
  errorMessage : Option String
  requiredConfirmation : Bool
deriving DecidableEq, Repr

/-- `execute_tool_async`: mark the record running; allocate a sandbox only
for `privacy_tier > 0` and not on a dry run; run the executor — a dry run
short-circuits in every tier to the provider's simulated result; on success
store the output and increment the permission's use counter; on a raise mark
the record failed; finally destroy the sandbox when one was allocated.
Returns the record, the permission, and whether a sandbox was created and
destroyed. -/
def executeToolAsync (t : Tool) (p : ToolPermission) (dryRun : Bool)
    (req : ExecRequest) (record0 : ExecRecord) :
    ExecRecord × ToolPermission × Bool × Bool :=
  let record := { record0 with status := ExecutionStatus.running }
  let sandboxId : Option Nat :=
    if t.privacyTier > 0 && !dryRun then some 0 else none
  let record := { record with sandboxId := sandboxId }
  let destroyed := sandboxId.isSome
  if req.providerOk then
    let output : ToolOutput :=
      if dryRun then .dryRunSim t.name req.paramsRepr else .real req.realOutput
    ({ record with status := ExecutionStatus.success, outputResult := some output },
      { p with currentUses := p.currentUses + 1 }, sandboxId.isSome, destroyed)
  else
    let failedRecord := { record with status := ExecutionStatus.failed }
    ({ failedRecord with errorMessage := some "tool execution raised" },
      p, sandboxId.isSome, destroyed)

/-- What the caller of `POST /execute` observes: an HTTP error, a record
parked awaiting confirmation, or a completed background execution. -/
inductive RouteOutcome where
  | httpError (status : Nat)
  | pendingConfirmation (record : ExecRecord) (rl : ToolRateLimit)
  | completed (record : ExecRecord) (rl : ToolRateLimit) (perm : ToolPermission)
      (sandboxCreated sandboxDestroyed : Bool)
deriving DecidableEq, Repr

/-- The `execute_tool` route followed by its background task: permission
lookup and validity (403), execute scope (403), tool availability (404), the
rate-limit check — which increments counters on allow — (429 on deny, with
the session rolled back), parameter validation (400), record creation, the
confirmation detour for non-dry runs, and otherwise `execute_tool_async`.
`perm0 = none` stands for "no active permission row". -/
def executeToolRoute (now : Nat) (t : Tool) (perm0 : Option ToolPermission)
    (rl0 : Option ToolRateLimit) (req : ExecRequest) : RouteOutcome :=
  match perm0 with
  | none => .httpError 403
  | some p =>
    if !p.isValid now then .httpError 403
    else if !(p.scopes.contains .execute) then .httpError 403
    else if !t.isAvailable then .httpError 404
    else
      let checked := checkRateLimit now t rl0
      if !checked.1 then .httpError 429
      else if !req.paramsValid then .httpError 400
      else
        let record0 : ExecRecord :=
          { dryRun := req.dryRun, status := ExecutionStatus.pending,
            sandboxId := none, outputResult := none, errorMessage := none,
            requiredConfirmation := t.requiresConfirmation || p.requireConfirmation }
        if record0.requiredConfirmation && !req.dryRun then
          .pendingConfirmation record0 checked.2
        else
          match executeToolAsync t p req.dryRun req record0 with
          | (record, p', created, destroyed) =>
            .completed record checked.2 p' created destroyed

/-- The ledger loop the claim about use caps describes: each call checks
`is_valid` as the route does and, when valid, the background task increments
`current_uses` on success.  Returns the permission after `k` calls together
with the number of calls that passed the check. -/
def execSequence (p : ToolPermission) (now : Nat) : Nat → ToolPermission × Nat
  | 0 => (p, 0)
  | k + 1 =>
    let r := execSequence p now k
    if r.1.isValid now then
      ({ r.1 with currentUses := r.1.currentUses + 1 }, r.2 + 1)
    else r

/- ============================================================ -/
/- File operations tool (backend/tools/builtin/file_ops.py)     -/
/- ============================================================ -/

/-- A path argument as handed to the tool: either absolute (in which case
`workspace / path` discards the workspace, as `pathlib` does) or relative to
the workspace, given as its components. -/
structure PathArg where
  isAbsolute : Bool
  comps : List String
deriving DecidableEq, Repr

/-- Lexical `Path.resolve()` over components rooted at `/`: empty and `"."`
components vanish, `".."` removes the last kept component (and at the root
stays at the root, as `"/.."` resolves to `"/"`). -/
def resolveComps (acc : List String) : List String → List String
  | [] => acc
  | c :: rest =>
    if c = "" ∨ c = "." then resolveComps acc rest
    else if c = ".." then resolveComps acc.dropLast rest
    else resolveComps (acc ++ [c]) rest

/-- `as` is an initial run of `bs`, component by component. -/
def startsWithComps : List String → List String → Bool
  | [], _ => true
  | _ :: _, [] => false
  | a :: as, b :: bs => a == b && startsWithComps as bs

/-- `FileOpsTool._get_safe_path`: resolve `workspace / path` and accept it
only when `target.relative_to(workspace)` succeeds, i.e. when the resolved
workspace components lead the resolved target.  `workspace` is assumed
already resolved (the constructor stores `Path(...).resolve()`). -/
def getSafePath (workspace : List String) (p : PathArg) : Option (List String) :=
  let joined := if p.isAbsolute then p.comps else workspace ++ p.comps
  let target := resolveComps [] joined
  if startsWithComps workspace target then some target else none

/-- The file actions `FileOpsTool.execute` dispatches on. -/
inductive FileAction where
  | read
  | write
  | append
  | listDir
  | existsCheck
  | delete
deriving DecidableEq, Repr

/-- The file store the tool operates on: absolute resolved path → contents.
Directory-only behaviour (`list`) is modelled over the same store. -/
abbrev FileStore := List (List String × String)

def fsLookup : FileStore → List String → Option String
  | [], _ => none
  | e :: fs, p => if e.1 = p then some e.2 else fsLookup fs p

def fsDelete : FileStore → List String → FileStore
  | [], _ => []
  | e :: fs, p => if e.1 = p then fsDelete fs p else e :: fsDelete fs p

def fsWrite (fs : FileStore) (p : List String) (c : String) : FileStore :=
  (p, c) :: fsDelete fs p

/-- The result dict of `FileOpsTool.execute`, reduced to the fields the
claims observe. -/
structure FileOpResult where
  success : Bool
  errorMsg : Option String
  content : Option String
deriving DecidableEq, Repr

/-- The escape rejection `execute` returns when `_get_safe_path` yields
`None`. -/
def pathEscapeError (pathText : String) : FileOpResult :=
  ⟨false, some ("Path '" ++ pathText ++ "' is outside workspace"), none⟩

/-- `FileOpsTool.execute`: resolve the path through `_get_safe_path` and
reject it with the escape error — touching no file — when it falls outside
the workspace; otherwise perform the action on the resolved path.  `write`
and `append` with a missing `content` raise inside the handler and surface
as a failed result without touching the store (the source's broad `except`).
`pathText` is the textual form of the path used in the error message. -/
def fileOpsExecute (workspace : List String) (action : FileAction)
    (path : PathArg) (pathText : String) (content : Option String)
    (fs : FileStore) : FileOpResult × FileStore :=
  match getSafePath workspace path with
  | none => (pathEscapeError pathText, fs)
  | some target =>
    match action with
    | .read =>
      match fsLookup fs target with
      | none => (⟨false, some ("File not found: " ++ pathText), none⟩, fs)
      | some c => (⟨true, none, some c⟩, fs)
    | .write =>
      match content with
      | none => (⟨false, some "write() argument must be str", none⟩, fs)
      | some c => (⟨true, none, none⟩, fsWrite fs target c)
    | .append =>
      match content with
      | none => (⟨false, some "write() argument must be str", none⟩, fs)
      | some c =>
        (⟨true, none, none⟩, fsWrite fs target ((fsLookup fs target).getD "" ++ c))
    | .listDir => (⟨true, none, none⟩, fs)
    | .existsCheck => (⟨true, none, some (toString (fsLookup fs target).isSome)⟩, fs)
    | .delete =>
      match fsLookup fs target with
      | none => (⟨false, some ("File not found: " ++ pathText), none⟩, fs)
      | some _ => (⟨true, none, none⟩, fsDelete fs target)

/- ============================================================ -/
/- LLM broker (backend/core/llm/broker.py)                      -/
/- ============================================================ -/

/-- One MCP-style tool definition as `Neuron.chat` hands it to the broker.
The JSON parameters dict is carried as the opaque text `paramsRepr`, which is
both what the prompt injection interpolates and what the provider format
passes through unchanged. -/
structure BrokerToolDef where
  name : String
  description : String
  paramsRepr : String
deriving DecidableEq, Repr

/-- One entry of the provider-format tool list:
`{"type": "function", "function": {"name": ..., "description": ...,
"parameters": ...}}`. -/
structure ProviderTool where
  fnName : String
  fnDescription : String
  fnParams : String
deriving DecidableEq, Repr

/-- `LLMBroker._supports_native_tools`, the capability recorded by
`initialize()`. -/
def supportsNativeTools (provider : String) : Bool :=
  ["openai", "anthropic", "together", "groq"].contains provider

/-- `LLMBroker._get_litellm_model`. -/
def getLitellmModel (provider model : String) : String :=
  if provider == "ollama" then "ollama/" ++ model
  else if provider == "openai" then model
  else if provider == "anthropic" then "anthropic/" ++ model
  else if provider == "together" then "together_ai/" ++ model
  else provider ++ "/" ++ model

/-- `LLMBroker._convert_tools_to_provider_format`: normalize each tool's
fields into the function-calling channel, leaving the values themselves
untouched. -/
def convertToolsToProviderFormat (tools : List BrokerToolDef) : List ProviderTool :=
  tools.map (fun t => ⟨t.name, t.description, t.paramsRepr⟩)

/-- The catalog line built for one tool by `_inject_tools_in_prompt`. -/
def toolDescLine (t : BrokerToolDef) : String :=
  "- " ++ t.name ++ ": " ++ t.description ++ "\n  Parameters: " ++ t.paramsRepr

/-- `LLMBroker._inject_tools_in_prompt`: append to the prompt a textual
catalog of every tool and the structured tool-invocation convention. -/
def injectToolsInPrompt (prompt : String) (tools : List BrokerToolDef) : String :=
  let toolsText := String.intercalate "\n" (tools.map toolDescLine)
  prompt ++ "\n\nYou have access to the following tools:\n" ++ toolsText
    ++ "\n\nTo use a tool, respond in this format:\nTOOL: tool_name\nARGS: \x7b\"param\": \"value\"\x7d\n\nOtherwise, respond normally to the user."

/-- The LiteLLM call arguments `stream` assembles: the single user message's
content and the optional native `tools` argument. -/
structure CallArgs where
  model : String
  messageContent : String
  nativeTools : Option (List ProviderTool)
  maxTokens : Nat
deriving DecidableEq, Repr

/-- The argument-assembly portion of `LLMBroker.stream`: with a non-empty
tool list, a native-capable provider gets the converted tools and the prompt
untouched, while any other provider gets no `tools` argument and the prompt
rewritten by `_inject_tools_in_prompt`; with no tools the prompt passes
through alone. -/
def buildStreamCallArgs (provider model prompt : String)
    (tools : List BrokerToolDef) (maxTokens : Nat) : CallArgs :=
  if !tools.isEmpty && supportsNativeTools provider then
    ⟨getLitellmModel provider model, prompt,
      some (convertToolsToProviderFormat tools), maxTokens⟩
  else if !tools.isEmpty then
    ⟨getLitellmModel provider model, injectToolsInPrompt prompt tools,
      none, maxTokens⟩
  else
    ⟨getLitellmModel provider model, prompt, none, maxTokens⟩

/- ============================================================ -/
/- Claim C1                                                     -/
/- ============================================================ -/

/-- C1: any exception at the modelled points of a chat turn (retrieval /
prompt construction, tool fetching, or the broker stream) leaves the memory
and consolidator untouched (prior turns intact, the turn not appended), sets
the state to `error`, and the caller receives exactly the already-delivered
fragments followed by one terminal error fragment; a turn with no exception
ends `idle` with the turn appended to memory. -/
theorem c1_chat_error_containment
    (mem : HierarchicalMemory) (cons : ConsolidatorState)
    (userMessage context : String) (metadata : List (String × String))
    (timestamp : String) (nowSec : Nat) (chunks : List String)
    (failureMsg : String) :
    (∀ f : ChatFailure,
      (chat mem cons userMessage context metadata timestamp nowSec chunks
          (some f) failureMsg).state = NeuronState.error
      ∧ (chat mem cons userMessage context metadata timestamp nowSec chunks
          (some f) failureMsg).memory = mem
      ∧ (chat mem cons userMessage context metadata timestamp nowSec chunks
          (some f) failureMsg).consolidator = cons
      ∧ ∃ k, (chat mem cons userMessage context metadata timestamp nowSec chunks
          (some f) failureMsg).fragments
            = chunks.take k ++ [errFragment failureMsg])
    ∧ (chat mem cons userMessage context metadata timestamp nowSec chunks
        none failureMsg).state = NeuronState.idle
    ∧ (chat mem cons userMessage context metadata timestamp nowSec chunks
        none failureMsg).fragments = chunks
    ∧ (chat mem cons userMessage context metadata timestamp nowSec chunks
        none failureMsg).memory
        = addInteraction mem userMessage (String.join chunks) context metadata
            timestamp := by
  refine ⟨fun f => ?_, rfl, rfl, rfl⟩
  cases f with
  | ragSearch => exact ⟨rfl, rfl, rfl, 0, by simp [chat]⟩
  | toolFetch => exact ⟨rfl, rfl, rfl, 0, by simp [chat]⟩
  | streamAt k => exact ⟨rfl, rfl, rfl, k, rfl⟩

/- ============================================================ -/
/- Claim C9                                                     -/
/- ============================================================ -/

/-- A one-turn memory used as concrete input. -/
def oneTurnMemory : HierarchicalMemory :=
  { HierarchicalMemory.fresh with
      workingMemory := [⟨"hi", "hello", "", [], "2025-01-01T00:00:00"⟩] }

/-- C9, counterexample: with `max_items = 0` the source returns the whole of
L1 (`working_memory[-0:]` is the full list), not the most recent 0 turns.
On a one-turn memory the claim as stated predicts the empty string; the code
returns the formatted turn. -/
theorem c9_counterexample :
    (getContext oneTurnMemory 0).1 = "User: hi\nAssistant: hello"
    ∧ (getContext oneTurnMemory 0).1
        ≠ String.intercalate "\n\n"
            ((oneTurnMemory.workingMemory.drop
                (oneTurnMemory.workingMemory.length - 0)).map contextLine) := by
  constructor
  · rfl
  · decide

/-- C9, amended: `get_context` is side-effect-free (the memory it returns is
the one it was given) and idempotent (two consecutive calls with no
intervening `add_interaction` agree), and for `max_items ≥ 1` it returns the
most recent `max_items` L1 turns formatted as alternating speaker lines; for
`max_items = 0` it returns all turns. -/
theorem c9_get_context (m : HierarchicalMemory) (k : Nat) :
    (getContext m k).2 = m
    ∧ getContext ((getContext m k).2) k = getContext m k
    ∧ (1 ≤ k → (getContext m k).1
        = String.intercalate "\n\n"
            ((m.workingMemory.drop (m.workingMemory.length - k)).map contextLine))
    ∧ (k = 0 → (getContext m k).1
        = String.intercalate "\n\n" (m.workingMemory.map contextLine)) := by
  refine ⟨rfl, rfl, fun hk => ?_, fun hk => ?_⟩
  · have : k ≠ 0 := by omega
    simp [getContext, pySliceLast, this]
  · subst hk
    simp [getContext, pySliceLast]

/-- C9, witness: the amended theorem applied at a concrete memory and
`max_items = 2`. -/
theorem c9_witness :
    (getContext oneTurnMemory 2).1
      = String.intercalate "\n\n"
          ((oneTurnMemory.workingMemory.drop
              (oneTurnMemory.workingMemory.length - 2)).map contextLine) :=
  (c9_get_context oneTurnMemory 2).2.2.1 (by decide)

/- ============================================================ -/
/- Claim C3                                                     -/
/- ============================================================ -/

/-- `add_interaction` called once per element of `xs`, in order. -/
def addMany (m : HierarchicalMemory) (xs : List Interaction) : HierarchicalMemory :=
  xs.foldl
    (fun acc i => addInteraction acc i.user i.assistant i.context i.metadata i.timestamp)
    m

/-- Claim-side description of the memory after the adds from a fresh
memory: L1 holds the most recent (at most) 10 interactions; L2 holds, for
each overflowing call, exactly one entry — the deterministic compression of
the single evicted oldest interaction, stamped with the timestamp of the
call that evicted it; L3 and L4 are untouched. -/
def specMemoryAfter (xs : List Interaction) : HierarchicalMemory :=
  ⟨xs.drop (xs.length - 10),
    ((xs.take (xs.length - 10)).zip (xs.drop 10)).map
      (fun p => compressInteractions [p.1] p.2.timestamp),
    ⟨none, none, none⟩, ⟨none⟩⟩

theorem addMany_snoc (m : HierarchicalMemory) (xs : List Interaction)
    (x : Interaction) :
    addMany m (xs ++ [x])
      = addInteraction (addMany m xs) x.user x.assistant x.context x.metadata
          x.timestamp := by
  simp [addMany, List.foldl_append]

theorem addInteraction_eq_of_gt (m : HierarchicalMemory) (i : Interaction)
    (h : 10 < (m.workingMemory ++ [i]).length) :
    addInteraction m i.user i.assistant i.context i.metadata i.timestamp
      = { m with
          episodicMemory := m.episodicMemory
            ++ [compressInteractions (pyDropLast (m.workingMemory ++ [i]) 10)
                  i.timestamp],
          workingMemory := pySliceLast (m.workingMemory ++ [i]) 10 } := by
  have hx : (⟨i.user, i.assistant, i.context, i.metadata, i.timestamp⟩ :
      Interaction) = i := rfl
  simp only [addInteraction, hx]
  rw [if_pos h]

theorem addInteraction_eq_of_le (m : HierarchicalMemory) (i : Interaction)
    (h : ¬ 10 < (m.workingMemory ++ [i]).length) :
    addInteraction m i.user i.assistant i.context i.metadata i.timestamp
      = { m with workingMemory := m.workingMemory ++ [i] } := by
  have hx : (⟨i.user, i.assistant, i.context, i.metadata, i.timestamp⟩ :
      Interaction) = i := rfl
  simp only [addInteraction, hx]
  rw [if_neg h]

theorem addMany_fresh_spec (xs : List Interaction) :
    addMany HierarchicalMemory.fresh xs = specMemoryAfter xs := by
  induction xs using List.reverseRecOn with
  | nil => rfl
  | append_singleton xs x ih =>
    rw [addMany_snoc, ih]
    by_cases h : 10 ≤ xs.length
    · have hlt : xs.length - 10 < xs.length := by omega
      have hdlen : (xs.drop (xs.length - 10)).length = 10 := by
        rw [List.length_drop]; omega
      have hwlen : (xs.drop (xs.length - 10) ++ [x]).length = 11 := by
        rw [List.length_append, hdlen]; rfl
      have halen : (xs ++ [x]).length = xs.length + 1 := by
        rw [List.length_append]; rfl
      have hwork : (xs.drop (xs.length - 10) ++ [x]).drop 1
          = (xs ++ [x]).drop (xs.length + 1 - 10) := by
        rw [List.drop_append_of_le_length (by rw [hdlen]; omega),
          List.drop_drop,
          List.drop_append_of_le_length (by omega : xs.length + 1 - 10 ≤ xs.length)]
        have e : xs.length - 10 + 1 = xs.length + 1 - 10 := by omega
        rw [e]
      have htake : (xs.drop (xs.length - 10) ++ [x]).take 1
          = [xs[xs.length - 10]] := by
        rw [List.take_append_of_le_length (by rw [hdlen]; omega)]
        rw [List.take_one, List.head?_drop, List.getElem?_eq_getElem hlt]
        rfl
      have hepis : ((xs ++ [x]).take (xs.length + 1 - 10)).zip ((xs ++ [x]).drop 10)
          = (xs.take (xs.length - 10)).zip (xs.drop 10)
            ++ [(xs[xs.length - 10], x)] := by
        have e1 : xs.length + 1 - 10 = (xs.length - 10) + 1 := by omega
        rw [List.take_append_of_le_length (by omega : xs.length + 1 - 10 ≤ xs.length)]
        rw [List.drop_append_of_le_length (by omega : 10 ≤ xs.length)]
        rw [e1, List.take_succ, List.getElem?_eq_getElem hlt]
        rw [List.zip_append
          (by rw [List.length_take, List.length_drop]
              exact Nat.min_eq_left (by omega))]
        simp
      rw [addInteraction_eq_of_gt (specMemoryAfter xs) x
        (by show 10 < (xs.drop (xs.length - 10) ++ [x]).length
            rw [hwlen]; omega)]
      show HierarchicalMemory.mk
          (pySliceLast (xs.drop (xs.length - 10) ++ [x]) 10)
          (((xs.take (xs.length - 10)).zip (xs.drop 10)).map
              (fun p => compressInteractions [p.1] p.2.timestamp)
            ++ [compressInteractions
                  (pyDropLast (xs.drop (xs.length - 10) ++ [x]) 10) x.timestamp])
          ⟨none, none, none⟩ ⟨none⟩
        = HierarchicalMemory.mk
            ((xs ++ [x]).drop ((xs ++ [x]).length - 10))
            ((((xs ++ [x]).take ((xs ++ [x]).length - 10)).zip
                ((xs ++ [x]).drop 10)).map
              (fun p => compressInteractions [p.1] p.2.timestamp))
            ⟨none, none, none⟩ ⟨none⟩
      refine congrArg₂ (fun a b => HierarchicalMemory.mk a b ⟨none, none, none⟩ ⟨none⟩)
        ?_ ?_
      · simp only [pySliceLast]
        rw [if_neg (by decide : ¬ (10 = 0))]
        rw [hwlen, halen]
        rw [show (11 : Nat) - 10 = 1 from rfl, hwork]
      · rw [halen, hepis, List.map_append]
        have hone : pyDropLast (xs.drop (xs.length - 10) ++ [x]) 10
            = [xs[xs.length - 10]] := by
          simp only [pyDropLast]
          rw [hwlen, show (11 : Nat) - 10 = 1 from rfl]
          exact htake
        rw [hone]
        simp
    · have halen : (xs ++ [x]).length = xs.length + 1 := by
        rw [List.length_append]; rfl
      have e0 : xs.length - 10 = 0 := by omega
      rw [addInteraction_eq_of_le (specMemoryAfter xs) x
        (by show ¬ 10 < (xs.drop (xs.length - 10) ++ [x]).length
            simp only [List.length_append, List.length_drop, List.length_cons,
              List.length_nil]
            omega)]
      show HierarchicalMemory.mk
          (xs.drop (xs.length - 10) ++ [x])
          (((xs.take (xs.length - 10)).zip (xs.drop 10)).map
            (fun p => compressInteractions [p.1] p.2.timestamp))
          ⟨none, none, none⟩ ⟨none⟩
        = HierarchicalMemory.mk
            ((xs ++ [x]).drop ((xs ++ [x]).length - 10))
            ((((xs ++ [x]).take ((xs ++ [x]).length - 10)).zip
                ((xs ++ [x]).drop 10)).map
              (fun p => compressInteractions [p.1] p.2.timestamp))
            ⟨none, none, none⟩ ⟨none⟩
      have e1 : (xs ++ [x]).length - 10 = 0 := by rw [halen]; omega
      rw [e0, e1]
      simp

/-- C3: starting from a fresh memory, after `add_interaction` runs once per
element of `xs` (K calls): L1 is exactly the most recent `min K 10`
interactions (so it never exceeds 10 after any call — the statement holds
for every `xs`, hence for every prefix of calls); when `K ≤ 10` L1 holds all
K entries and L2 is unchanged (empty); L2 holds exactly `K - 10` entries,
one per overflowing call, each the deterministic compression of the single
evicted oldest interaction — `addInteraction` takes no model oracle, so no
LLM call is involved; L3 and L4 are untouched. -/
theorem c3_working_memory_bound (xs : List Interaction) :
    (addMany HierarchicalMemory.fresh xs).workingMemory
        = xs.drop (xs.length - 10)
    ∧ (addMany HierarchicalMemory.fresh xs).workingMemory.length
        = min xs.length 10
    ∧ (xs.length ≤ 10 →
        (addMany HierarchicalMemory.fresh xs).workingMemory = xs
        ∧ (addMany HierarchicalMemory.fresh xs).episodicMemory = [])
    ∧ (addMany HierarchicalMemory.fresh xs).episodicMemory
        = ((xs.take (xs.length - 10)).zip (xs.drop 10)).map
            (fun p => compressInteractions [p.1] p.2.timestamp)
    ∧ (addMany HierarchicalMemory.fresh xs).episodicMemory.length
        = xs.length - 10
    ∧ (addMany HierarchicalMemory.fresh xs).semanticMemory = ⟨none, none, none⟩
    ∧ (addMany HierarchicalMemory.fresh xs).proceduralMemory = ⟨none⟩ := by
  rw [addMany_fresh_spec]
  refine ⟨rfl, ?_, fun hle => ⟨?_, ?_⟩, rfl, ?_, rfl, rfl⟩
  · simp [specMemoryAfter, List.length_drop]
    omega
  · have : xs.length - 10 = 0 := by omega
    simp [specMemoryAfter, this]
  · have h3 : xs.drop 10 = [] := List.drop_eq_nil_of_le hle
    simp [specMemoryAfter, h3]
  · simp only [specMemoryAfter, List.length_map, List.length_zip,
      List.length_take, List.length_drop]
    omega

/-- C3, witness: the theorem applied at a concrete two-call sequence. -/
theorem c3_witness :
    (addMany HierarchicalMemory.fresh
        [⟨"a", "b", "", [], "t1"⟩, ⟨"c", "d", "", [], "t2"⟩]).workingMemory
      = [⟨"a", "b", "", [], "t1"⟩, ⟨"c", "d", "", [], "t2"⟩]
    ∧ (addMany HierarchicalMemory.fresh
        [⟨"a", "b", "", [], "t1"⟩, ⟨"c", "d", "", [], "t2"⟩]).episodicMemory
      = [] :=
  (c3_working_memory_bound
      [⟨"a", "b", "", [], "t1"⟩, ⟨"c", "d", "", [], "t2"⟩]).2.2.1 (by decide)

/- ============================================================ -/
/- Claims C2 and C10                                            -/
/- ============================================================ -/

/-- The five stages as one fallible pipeline: `none` exactly when some
executed stage's model call raised. -/
def runStages (m : HierarchicalMemory) (o : ConsolidationOracle)
    (nowIso : String) : Option HierarchicalMemory :=
  (compressWorkingMemory m o.s1 nowIso).bind (fun m1 =>
    (consolidateEpisodicMemory m1 o.s2).bind (fun m2 =>
      (extractSemanticKnowledge m2 o.s3).bind (fun m3 =>
        (learnProcedures m3 o.s4).bind (fun m4 =>
          resolveContradictions m4 o.s5))))

/-- A consolidator that has reached its interaction threshold. -/
def consC2 : ConsolidatorState := ⟨100, 50, 0, 100⟩

/-- A memory whose L2 is large enough that stage 2 calls the model. -/
def memC2 : HierarchicalMemory :=
  ⟨[], List.replicate 11 (Episode.llmSummary "e" "t0" 1), ⟨none, none, none⟩, ⟨none⟩⟩

/-- A run in which stage 2's model call raises while stage 3 would have
parsed successfully. -/
def oC2 : ConsolidationOracle :=
  ⟨some "unused", StageResult.exn,
    StageResult.ok ⟨some [("alice", "friend")], none, none⟩,
    StageResult.ok [], StageResult.ok ⟨[], [], []⟩⟩

/-- C2, counterexample: a model-call failure inside stage 2 is not skipped —
it aborts the run (marked failed) and stage 3 is never attempted, although
the same stage 3 outcome is applied when stage 2 merely fails to parse.  The
claim's "a JSON-parse failure or a model-call failure inside one stage is
logged and that stage skipped, the remaining stages are still attempted" is
therefore false for model-call failures. -/
theorem c2_counterexample :
    (consolidate consC2 1000 "t" memC2 oC2).2.2.success = false
    ∧ (consolidate consC2 1000 "t" memC2 oC2).2.1.semanticMemory.entities = none
    ∧ (consolidate consC2 1000 "t" memC2
          { oC2 with s2 := StageResult.parseFail }).2.1.semanticMemory.entities
        = some [("alice", "friend")] :=
  ⟨rfl, rfl, rfl⟩

/-- C2, amended: a JSON-parse failure inside a stage is skipped — the stage
leaves its layer untouched and does not abort, so the remaining stages are
still attempted, and a layer is replaced only on a successful parse; a
model-call failure inside any stage, however, aborts the run at that stage:
the result record is marked failed, the remaining stages are not attempted,
and the effects of the stages that already completed are retained (no
rollback, counters untouched). -/
theorem c2_stage_isolation (c : ConsolidatorState) (now : Nat)
    (nowIso : String) (m : HierarchicalMemory) (o : ConsolidationOracle) :
    consolidateEpisodicMemory m StageResult.parseFail = some m
    ∧ extractSemanticKnowledge m StageResult.parseFail = some m
    ∧ learnProcedures m StageResult.parseFail = some m
    ∧ resolveContradictions m StageResult.parseFail = some m
    ∧ ((consolidate c now nowIso m o).2.2.success
        = (runStages m o nowIso).isSome)
    ∧ (∀ m5, runStages m o nowIso = some m5 →
        consolidate c now nowIso m o
          = ({ c with lastConsolidation := now, interactionsSinceConsolidation := 0 },
              m5, ⟨layerCounts m, some (layerCounts m5), true, none, now⟩))
    ∧ (compressWorkingMemory m o.s1 nowIso = none →
        consolidate c now nowIso m o
          = (c, m, ⟨layerCounts m, none, false,
              some "stage 1 model call raised", now⟩))
    ∧ (∀ m1, compressWorkingMemory m o.s1 nowIso = some m1 →
        consolidateEpisodicMemory m1 o.s2 = none →
        consolidate c now nowIso m o
          = (c, m1, ⟨layerCounts m, none, false,
              some "stage 2 model call raised", now⟩))
    ∧ (∀ m1, compressWorkingMemory m o.s1 nowIso = some m1 →
        ∀ m2, consolidateEpisodicMemory m1 o.s2 = some m2 →
        extractSemanticKnowledge m2 o.s3 = none →
        consolidate c now nowIso m o
          = (c, m2, ⟨layerCounts m, none, false,
              some "stage 3 model call raised", now⟩))
    ∧ (∀ m1, compressWorkingMemory m o.s1 nowIso = some m1 →
        ∀ m2, consolidateEpisodicMemory m1 o.s2 = some m2 →
        ∀ m3, extractSemanticKnowledge m2 o.s3 = some m3 →
        learnProcedures m3 o.s4 = none →
        consolidate c now nowIso m o
          = (c, m3, ⟨layerCounts m, none, false,
              some "stage 4 model call raised", now⟩))
    ∧ (∀ m1, compressWorkingMemory m o.s1 nowIso = some m1 →
        ∀ m2, consolidateEpisodicMemory m1 o.s2 = some m2 →
        ∀ m3, extractSemanticKnowledge m2 o.s3 = some m3 →
        ∀ m4, learnProcedures m3 o.s4 = some m4 →
        resolveContradictions m4 o.s5 = none →
        consolidate c now nowIso m o
          = (c, m4, ⟨layerCounts m, none, false,
              some "stage 5 model call raised", now⟩)) := by
  refine ⟨?_, rfl, ?_, ?_, ?_⟩
  · unfold consolidateEpisodicMemory; split <;> rfl
  · unfold learnProcedures; split <;> rfl
  · unfold resolveContradictions; split <;> simp_all
  cases hc1 : compressWorkingMemory m o.s1 nowIso with
  | none => simp [consolidate, runStages, hc1]
  | some m1 =>
    cases hc2 : consolidateEpisodicMemory m1 o.s2 with
    | none => simp [consolidate, runStages, hc1, hc2]
    | some m2 =>
      cases hc3 : extractSemanticKnowledge m2 o.s3 with
      | none => simp [consolidate, runStages, hc1, hc2, hc3]
      | some m3 =>
        cases hc4 : learnProcedures m3 o.s4 with
        | none => simp [consolidate, runStages, hc1, hc2, hc3, hc4]
        | some m4 =>
          cases hc5 : resolveContradictions m4 o.s5 with
          | none => simp [consolidate, runStages, hc1, hc2, hc3, hc4, hc5]
          | some m5 => simp [consolidate, runStages, hc1, hc2, hc3, hc4, hc5]

/-- C2, witness: the amended theorem applied at the concrete stage-2-raise
scenario, with the hypotheses discharged by evaluation. -/
theorem c2_witness :
    consolidate consC2 1000 "t" memC2 oC2
      = (consC2, memC2,
          ⟨layerCounts memC2, none, false,
            some "stage 2 model call raised", 1000⟩) :=
  (c2_stage_isolation consC2 1000 "t" memC2 oC2).2.2.2.2.2.2.2.1 memC2 rfl rfl

/-- C10: `consolidate` is total over the oracle (every outcome yields a
stats record rather than raising): the record either reports success or
carries an error detail; on failure the consolidator state is unchanged —
the interaction counter and the last-run timestamp are reset only when all
five stages complete — so a run triggered by the interaction threshold
still satisfies `should_consolidate` afterwards and is retried later. -/
theorem c10_consolidate_failure_recovery (c : ConsolidatorState) (now : Nat)
    (nowIso : String) (m : HierarchicalMemory) (o : ConsolidationOracle) :
    ((consolidate c now nowIso m o).2.2.success = true
      ∨ ((consolidate c now nowIso m o).2.2.success = false
          ∧ (consolidate c now nowIso m o).2.2.errorDetail.isSome = true))
    ∧ ((consolidate c now nowIso m o).2.2.success = false →
        (consolidate c now nowIso m o).1 = c)
    ∧ ((consolidate c now nowIso m o).2.2.success = true →
        (consolidate c now nowIso m o).1.lastConsolidation = now
          ∧ (consolidate c now nowIso m o).1.interactionsSinceConsolidation = 0)
    ∧ ((consolidate c now nowIso m o).2.2.success = false →
        c.consolidationThreshold ≤ c.interactionsSinceConsolidation →
        ∀ now2, shouldConsolidate (consolidate c now nowIso m o).1
            (consolidate c now nowIso m o).2.1 now2 = true) := by
  have hmain : ∀ c' m' s, consolidate c now nowIso m o = (c', m', s) →
      (s.success = true ∨ (s.success = false ∧ s.errorDetail.isSome = true))
      ∧ (s.success = false → c' = c)
      ∧ (s.success = true → c'.lastConsolidation = now
          ∧ c'.interactionsSinceConsolidation = 0) := by
    intro c' m' s h
    cases hc1 : compressWorkingMemory m o.s1 nowIso with
    | none =>
      simp [consolidate, hc1] at h
      obtain ⟨h1, _, h3⟩ := h
      subst h1; subst h3
      simp
    | some m1 =>
      cases hc2 : consolidateEpisodicMemory m1 o.s2 with
      | none =>
        simp [consolidate, hc1, hc2] at h
        obtain ⟨h1, _, h3⟩ := h
        subst h1; subst h3
        simp
      | some m2 =>
        cases hc3 : extractSemanticKnowledge m2 o.s3 with
        | none =>
          simp [consolidate, hc1, hc2, hc3] at h
          obtain ⟨h1, _, h3⟩ := h
          subst h1; subst h3
          simp
        | some m3 =>
          cases hc4 : learnProcedures m3 o.s4 with
          | none =>
            simp [consolidate, hc1, hc2, hc3, hc4] at h
            obtain ⟨h1, _, h3⟩ := h
            subst h1; subst h3
            simp
          | some m4 =>
            cases hc5 : resolveContradictions m4 o.s5 with
            | none =>
              simp [consolidate, hc1, hc2, hc3, hc4, hc5] at h
              obtain ⟨h1, _, h3⟩ := h
              subst h1; subst h3
              simp
            | some m5 =>
              simp [consolidate, hc1, hc2, hc3, hc4, hc5] at h
              obtain ⟨h1, _, h3⟩ := h
              subst h1; subst h3
              simp
  obtain ⟨ha, hb, hcc⟩ := hmain (consolidate c now nowIso m o).1
    (consolidate c now nowIso m o).2.1 (consolidate c now nowIso m o).2.2 rfl
  refine ⟨ha, hb, hcc, fun hfail hthr now2 => ?_⟩
  rw [hb hfail]
  simp only [shouldConsolidate, Bool.or_eq_true, decide_eq_true_eq]
  exact Or.inl (Or.inl hthr)

/-- C10, witness: the theorem applied at the concrete failed run; the
consolidator state is untouched and `should_consolidate` still holds. -/
theorem c10_witness :
    (consolidate consC2 1000 "t" memC2 oC2).1 = consC2
    ∧ shouldConsolidate (consolidate consC2 1000 "t" memC2 oC2).1
        (consolidate consC2 1000 "t" memC2 oC2).2.1 0 = true :=
  ⟨(c10_consolidate_failure_recovery consC2 1000 "t" memC2 oC2).2.1 rfl,
    (c10_consolidate_failure_recovery consC2 1000 "t" memC2 oC2).2.2.2 rfl
      (by decide) 0⟩

/- ============================================================ -/
/- Claim C4                                                     -/
/- ============================================================ -/

/-- The three window resets act on disjoint fields, so the roll-forward has
this explicit field-wise form. -/
theorem resetStaleWindows_eq (now : Nat) (rl : ToolRateLimit) :
    resetStaleWindows now rl
      = ⟨(if 60 < now - rl.minuteWindow then now else rl.minuteWindow),
          (if 3600 < now - rl.hourWindow then now else rl.hourWindow),
          (if 86400 < now - rl.dayWindow then now else rl.dayWindow),
          (if 60 < now - rl.minuteWindow then 0 else rl.minuteCount),
          (if 3600 < now - rl.hourWindow then 0 else rl.hourCount),
          (if 86400 < now - rl.dayWindow then 0 else rl.dayCount),
          rl.lastExecution⟩ := by
  by_cases h1 : 60 < now - rl.minuteWindow <;>
    by_cases h2 : 3600 < now - rl.hourWindow <;>
      by_cases h3 : 86400 < now - rl.dayWindow <;>
        simp [resetStaleWindows, h1, h2, h3]

/-- C4: `check_rate_limit` first rolls every stale window forward (checking
the rolled row is the same as checking the raw row), is denied exactly when
the minute or hour count has reached a truthy ceiling after the roll, leaves
all counters untouched on a denial, increments all three counters and stamps
`last_execution` on an allow; a counter at its per-minute ceiling is denied
while still inside the minute window, and allowed again once the clock
crosses the boundary (provided the rolled hour count is not itself at the
hour ceiling). -/
theorem c4_rate_limit_windows (now : Nat) (t : Tool) (rl : ToolRateLimit) :
    checkRateLimit now t (some rl)
        = checkRateLimit now t (some (resetStaleWindows now rl))
    ∧ ((checkRateLimit now t (some rl)).1 = false ↔
        (ceilingHit t.rateLimitPerMinute (resetStaleWindows now rl).minuteCount = true
          ∨ ceilingHit t.rateLimitPerHour (resetStaleWindows now rl).hourCount = true))
    ∧ ((checkRateLimit now t (some rl)).1 = false →
        (checkRateLimit now t (some rl)).2 = resetStaleWindows now rl)
    ∧ ((checkRateLimit now t (some rl)).1 = true →
        (checkRateLimit now t (some rl)).2.minuteCount
            = (resetStaleWindows now rl).minuteCount + 1
        ∧ (checkRateLimit now t (some rl)).2.hourCount
            = (resetStaleWindows now rl).hourCount + 1
        ∧ (checkRateLimit now t (some rl)).2.dayCount
            = (resetStaleWindows now rl).dayCount + 1
        ∧ (checkRateLimit now t (some rl)).2.lastExecution = some now)
    ∧ (∀ l, t.rateLimitPerMinute = some l → l ≠ 0 → l ≤ rl.minuteCount →
        now - rl.minuteWindow ≤ 60 →
        (checkRateLimit now t (some rl)).1 = false)
    ∧ (∀ now2, 60 < now2 - rl.minuteWindow →
        ceilingHit t.rateLimitPerHour (resetStaleWindows now2 rl).hourCount = false →
        (checkRateLimit now2 t (some rl)).1 = true) := by
  have hidem : resetStaleWindows now (resetStaleWindows now rl)
      = resetStaleWindows now rl := by
    rw [resetStaleWindows_eq now rl, resetStaleWindows_eq]
    by_cases h1 : 60 < now - rl.minuteWindow <;>
      by_cases h2 : 3600 < now - rl.hourWindow <;>
        by_cases h3 : 86400 < now - rl.dayWindow <;>
          simp [h1, h2, h3]
  refine ⟨?_, ?_, ?_, ?_, ?_, ?_⟩
  · unfold checkRateLimit
    simp only [Option.getD_some, hidem]
  · unfold checkRateLimit
    simp only [Option.getD_some]
    split
    · simp_all
    · split <;> simp_all
  · unfold checkRateLimit
    simp only [Option.getD_some]
    split
    · simp_all
    · split <;> simp_all
  · unfold checkRateLimit
    simp only [Option.getD_some]
    split
    · simp_all
    · split <;> simp_all
  · intro l hl hl0 hcount hwin
    unfold checkRateLimit
    simp only [Option.getD_some]
    have hmw : (resetStaleWindows now rl).minuteCount = rl.minuteCount := by
      rw [resetStaleWindows_eq]
      show (if 60 < now - rl.minuteWindow then 0 else rl.minuteCount)
        = rl.minuteCount
      rw [if_neg (by omega)]
    have hhit : ceilingHit t.rateLimitPerMinute
        (resetStaleWindows now rl).minuteCount = true := by
      rw [hmw, hl]
      simp only [ceilingHit]
      rw [Bool.and_eq_true]
      constructor
      · simp [hl0]
      · simpa using hcount
    rw [if_pos hhit]
  · intro now2 hwin hhour
    unfold checkRateLimit
    simp only [Option.getD_some]
    have hmw : (resetStaleWindows now2 rl).minuteCount = 0 := by
      rw [resetStaleWindows_eq]
      show (if 60 < now2 - rl.minuteWindow then 0 else rl.minuteCount) = 0
      rw [if_pos hwin]
    have hnohit : ceilingHit t.rateLimitPerMinute
        (resetStaleWindows now2 rl).minuteCount = false := by
      rw [hmw]
      cases hpm : t.rateLimitPerMinute with
      | none => rfl
      | some l =>
        by_cases hl : l = 0
        · subst hl
          simp [ceilingHit]
        · have : ¬ (0 ≥ l) := by omega
          simp [ceilingHit, this]
    rw [if_neg (by simp [hnohit]), if_neg (by simp [hhour])]

/-- A tool with a per-minute ceiling of 2 and no per-hour ceiling. -/
def toolC4 : Tool :=
  ⟨"web_search", 0, false, false, some 2, none, some 1000, true, false⟩

/-- A row at the per-minute ceiling, all windows opened at time 0. -/
def rlC4 : ToolRateLimit := ⟨0, 0, 0, 2, 2, 2, none⟩

/-- C4, witness: at the ceiling the check is denied inside the same minute
(t = 30 s) and allowed again after the window boundary (t = 100 s). -/
theorem c4_witness :
    (checkRateLimit 30 toolC4 (some rlC4)).1 = false
    ∧ (checkRateLimit 100 toolC4 (some rlC4)).1 = true :=
  ⟨(c4_rate_limit_windows 30 toolC4 rlC4).2.2.2.2.1 2 rfl (by decide)
      (by decide) (by decide),
    (c4_rate_limit_windows 30 toolC4 rlC4).2.2.2.2.2 100 (by decide) (by decide)⟩

/- ============================================================ -/
/- Claim C5                                                     -/
/- ============================================================ -/

/-- An active, unrevoked, unexpired permission with a daily cap of 1, no
total cap, and 5 recorded uses (in the scenario, all made today). -/
def permC5 : ToolPermission :=
  ⟨[PermissionScope.execute], none, some 1, none, 5, false, true, none⟩

/-- C5, counterexample: `is_valid` never consults `max_daily_uses` (the
schema tracks no daily counter at all), so a permission far beyond its daily
cap is still judged valid — the claimed "valid if and only if ... under all
of its use caps (both the daily cap and the total cap)" fails. -/
theorem c5_counterexample :
    ToolPermission.isValid permC5 1000 = true
    ∧ claimPermissionValid permC5 5 1000 = false :=
  ⟨rfl, rfl⟩

/-- A fresh permission whose only constraint is a total-use cap of `u`. -/
def freshCapPerm (u : Nat) : ToolPermission :=
  ⟨[PermissionScope.execute], none, none, some u, 0, false, true, none⟩

/-- C5, amended: validity is active AND not revoked AND not expired AND
under the total-use cap when that cap is set and non-zero — the daily cap is
not consulted; and a permission with `max_total_uses = U ≥ 1` passes the
sequential check-then-increment loop for exactly U calls, the (U+1)-th check
returning invalid. -/
theorem c5_validity_and_cap (p : ToolPermission) (now : Nat) :
    (ToolPermission.isValid p now = true ↔
      (p.active = true ∧ p.revokedAt = none
        ∧ (∀ e, p.expiresAt = some e → now ≤ e)
        ∧ (∀ u, p.maxTotalUses = some u → u ≠ 0 → p.currentUses < u)))
    ∧ (∀ u, 1 ≤ u → ∀ k, (execSequence (freshCapPerm u) now k).2 = min k u)
    ∧ (∀ u, 1 ≤ u →
        ToolPermission.isValid (execSequence (freshCapPerm u) now u).1 now
          = false) := by
  have hstate : ∀ u, 1 ≤ u → ∀ k,
      execSequence (freshCapPerm u) now k
        = ({ freshCapPerm u with currentUses := min k u }, min k u) := by
    intro u hu k
    induction k with
    | zero =>
      simp [execSequence]
      rfl
    | succ k ih =>
      rw [execSequence, ih]
      by_cases hk : k < u
      · have hv : ToolPermission.isValid
            { freshCapPerm u with currentUses := min k u } now = true := by
          simp only [ToolPermission.isValid, freshCapPerm, truthyNat]
          have : ¬ (min k u ≥ u) := by omega
          simp [this]
        rw [if_pos hv]
        have h1 : min k u + 1 = min (k + 1) u := by omega
        simp [h1]
      · have hv : ToolPermission.isValid
            { freshCapPerm u with currentUses := min k u } now = false := by
          simp only [ToolPermission.isValid, freshCapPerm, truthyNat]
          have h0 : ¬ (u = 0) := by omega
          have h1 : min k u ≥ u := by omega
          simp [h0, h1]
        rw [if_neg (by simp [hv])]
        have h2 : min k u = min (k + 1) u := by omega
        simp [h2]
  refine ⟨?_, ?_, ?_⟩
  · unfold ToolPermission.isValid
    constructor
    · intro hv
      by_cases ha : p.active
      · by_cases hr : p.revokedAt.isSome
        · simp [ha, hr] at hv
        · refine ⟨ha, by simpa using hr, ?_, ?_⟩
          · intro e he
            by_cases hlt : now > e
            · rw [if_neg (by simp [ha, hr]), if_pos (by simp [he, hlt])] at hv
              exact absurd hv (by simp)
            · omega
          · intro u hu hu0
            by_cases hexp : (match p.expiresAt with
                | some e => decide (now > e)
                | none => false) = true
            · rw [if_neg (by simp [ha, hr]), if_pos hexp] at hv
              exact absurd hv (by simp)
            · rw [if_neg (by simp [ha, hr]),
                if_neg (by simpa using hexp)] at hv
              by_cases hcap : p.currentUses ≥ u
              · rw [if_pos (by simp [truthyNat, hu, hu0, hcap])] at hv
                exact absurd hv (by simp)
              · omega
      · simp [ha] at hv
    · rintro ⟨ha, hr, he, hc⟩
      have hexpn : ¬ ((match p.expiresAt with
          | some e => decide (now > e)
          | none => false) = true) := by
        cases hex : p.expiresAt with
        | none => simp
        | some e =>
          have := he e hex
          simp
          omega
      have hcapn : ¬ ((truthyNat p.maxTotalUses
          && decide (p.currentUses ≥ p.maxTotalUses.getD 0)) = true) := by
        cases hmt : p.maxTotalUses with
        | none => simp [truthyNat]
        | some u =>
          by_cases hu0 : u = 0
          · simp [truthyNat, hu0]
          · have := hc u hmt hu0
            simp [truthyNat, hu0]
            omega
      rw [if_neg (by simp [ha, hr]), if_neg hexpn, if_neg hcapn]
  · intro u hu k
    rw [hstate u hu k]
  · intro u hu
    rw [hstate u hu u]
    simp only [ToolPermission.isValid, freshCapPerm, truthyNat]
    have h0 : ¬ (u = 0) := by omega
    have h1 : min u u ≥ u := by omega
    simp [h0, h1]

/-- C5, witness: with a total cap of 2 a five-call sequence yields exactly
two successes, and after the two successful calls the next check is
invalid. -/
theorem c5_witness :
    (execSequence (freshCapPerm 2) 0 5).2 = 2
    ∧ ToolPermission.isValid (execSequence (freshCapPerm 2) 0 2).1 0 = false :=
  ⟨by rw [(c5_validity_and_cap (freshCapPerm 2) 0).2.1 2 (by decide) 5]; decide,
    (c5_validity_and_cap (freshCapPerm 2) 0).2.2 2 (by decide)⟩

/- ============================================================ -/
/- Claim C6                                                     -/
/- ============================================================ -/

/-- On an allowed check all three counters are incremented over the rolled
row and `last_execution` is stamped. -/
theorem checkRateLimit_allowed (now : Nat) (t : Tool) (rl0 : Option ToolRateLimit)
    (h : (checkRateLimit now t rl0).1 = true) :
    (checkRateLimit now t rl0).2.minuteCount
        = (resetStaleWindows now (rl0.getD (freshRateLimit now))).minuteCount + 1
    ∧ (checkRateLimit now t rl0).2.hourCount
        = (resetStaleWindows now (rl0.getD (freshRateLimit now))).hourCount + 1
    ∧ (checkRateLimit now t rl0).2.dayCount
        = (resetStaleWindows now (rl0.getD (freshRateLimit now))).dayCount + 1
    ∧ (checkRateLimit now t rl0).2.lastExecution = some now := by
  simp only [checkRateLimit] at h ⊢
  split at h
  · simp at h
  · split at h
    · simp at h
    · simp_all

/-- A tier-0 tool with no ceilings and no confirmation requirement. -/
def toolC6 : Tool :=
  ⟨"file_ops", 0, false, false, none, none, some 1000, true, false⟩

/-- A valid permission for it, with no caps and no uses yet. -/
def permC6 : ToolPermission :=
  ⟨[PermissionScope.execute], none, none, none, 0, false, true, none⟩

/-- A rate-limit row with all windows opened at t = 100 and all counts 0. -/
def rlC6 : ToolRateLimit := ⟨100, 100, 100, 0, 0, 0, none⟩

/-- A dry-run request whose parameters validate and whose provider runs
without raising. -/
def reqC6 : ExecRequest := ⟨true, true, true, "real-output", "params"⟩

/-- C6, counterexample: an accepted dry-run execute request still increments
the rate-limit counters (the admission check runs and commits before the
dry-run branch) and, on success, the permission's use counter — the claimed
"no rate-limit counter is incremented, and no persisted state is mutated
other than the execution record" is false.  (The sandbox part holds: the
record keeps `sandbox_id = None`.) -/
theorem c6_counterexample :
    executeToolRoute 100 toolC6 (some permC6) (some rlC6) reqC6
      = RouteOutcome.completed
          ⟨true, ExecutionStatus.success, none,
            some (ToolOutput.dryRunSim "file_ops" "params"), none, false⟩
          ⟨100, 100, 100, 1, 1, 1, some 100⟩
          ⟨[PermissionScope.execute], none, none, none, 1, false, true, none⟩
          false false
    ∧ rlC6.minuteCount = 0
    ∧ permC6.currentUses = 0 :=
  ⟨rfl, rfl, rfl⟩

/-- C6, amended: an accepted dry-run request never allocates a sandbox (the
record keeps `sandbox_id = None`, nothing is created or destroyed) and its
record shows `dry_run = true` with the provider's simulated result on
success; however the rate-limit counters are incremented by the admission
check exactly as for a real run, and a successful dry run also increments
the permission's use counter. -/
theorem c6_dry_run_effects (now : Nat) (t : Tool) (p : ToolPermission)
    (rl0 : Option ToolRateLimit) (req : ExecRequest)
    (rec : ExecRecord) (rl' : ToolRateLimit) (p' : ToolPermission)
    (created destroyed : Bool)
    (hdry : req.dryRun = true)
    (h : executeToolRoute now t (some p) rl0 req
        = RouteOutcome.completed rec rl' p' created destroyed) :
    rec.dryRun = true
    ∧ rec.sandboxId = none
    ∧ created = false
    ∧ destroyed = false
    ∧ (req.providerOk = true →
        rec.status = ExecutionStatus.success
        ∧ rec.outputResult = some (ToolOutput.dryRunSim t.name req.paramsRepr)
        ∧ p'.currentUses = p.currentUses + 1)
    ∧ rl' = (checkRateLimit now t rl0).2
    ∧ rl'.minuteCount
        = (resetStaleWindows now (rl0.getD (freshRateLimit now))).minuteCount + 1
    ∧ rl'.hourCount
        = (resetStaleWindows now (rl0.getD (freshRateLimit now))).hourCount + 1
    ∧ rl'.dayCount
        = (resetStaleWindows now (rl0.getD (freshRateLimit now))).dayCount + 1 := by
  simp only [executeToolRoute] at h
  split at h
  · simp at h
  split at h
  · simp at h
  split at h
  · simp at h
  split at h
  · simp at h
  rename_i hallow
  split at h
  · simp at h
  split at h
  · simp at h
  rw [hdry] at h
  simp only [executeToolAsync, hdry, Bool.not_true, Bool.and_false,
    if_false] at h
  have hallow' : (checkRateLimit now t rl0).1 = true := by
    simpa using hallow
  obtain ⟨hm, hh, hd, hl⟩ := checkRateLimit_allowed now t rl0 hallow'
  split at h
  · rename_i hok
    simp only [RouteOutcome.completed.injEq] at h
    obtain ⟨hrec, hrl, hp, hcr, hds⟩ := h
    subst hrec; subst hrl; subst hp; subst hcr; subst hds
    refine ⟨rfl, rfl, rfl, rfl, fun _ => ⟨rfl, rfl, rfl⟩, rfl, hm, hh, hd⟩
  · rename_i hok
    simp only [RouteOutcome.completed.injEq] at h
    obtain ⟨hrec, hrl, hp, hcr, hds⟩ := h
    subst hrec; subst hrl; subst hp; subst hcr; subst hds
    refine ⟨rfl, rfl, rfl, rfl, fun hok2 => absurd hok2 (by simp_all), rfl,
      hm, hh, hd⟩

/-- C6, witness: the amended theorem applied at the concrete accepted
dry-run request of the counterexample. -/
theorem c6_witness :
    (⟨true, ExecutionStatus.success, none,
        some (ToolOutput.dryRunSim "file_ops" "params"), none, false⟩ :
      ExecRecord).sandboxId = none
    ∧ (⟨100, 100, 100, 1, 1, 1, some 100⟩ : ToolRateLimit).minuteCount
        = (resetStaleWindows 100 ((some rlC6).getD (freshRateLimit 100))).minuteCount
            + 1 :=
  ⟨(c6_dry_run_effects 100 toolC6 permC6 (some rlC6) reqC6
      ⟨true, ExecutionStatus.success, none,
        some (ToolOutput.dryRunSim "file_ops" "params"), none, false⟩
      ⟨100, 100, 100, 1, 1, 1, some 100⟩
      ⟨[PermissionScope.execute], none, none, none, 1, false, true, none⟩
      false false rfl rfl).2.1,
    (c6_dry_run_effects 100 toolC6 permC6 (some rlC6) reqC6
      ⟨true, ExecutionStatus.success, none,
        some (ToolOutput.dryRunSim "file_ops" "params"), none, false⟩
      ⟨100, 100, 100, 1, 1, 1, some 100⟩
      ⟨[PermissionScope.execute], none, none, none, 1, false, true, none⟩
      false false rfl rfl).2.2.2.2.2.2.1⟩

/- ============================================================ -/
/- Claim C7                                                     -/
/- ============================================================ -/

theorem startsWithComps_iff (a : List String) :
    ∀ b, startsWithComps a b = true ↔ ∃ t, b = a ++ t := by
  induction a with
  | nil =>
    intro b
    constructor
    · intro _; exact ⟨b, rfl⟩
    · intro _; rfl
  | cons x xs ih =>
    intro b
    cases b with
    | nil =>
      constructor
      · intro hfalse; exact absurd hfalse (by simp [startsWithComps])
      · rintro ⟨t, ht⟩; exact absurd ht (by simp)
    | cons y ys =>
      constructor
      · intro hsw
        have hsw' : (x == y) = true ∧ startsWithComps xs ys = true := by
          simpa [startsWithComps, Bool.and_eq_true] using hsw
        obtain ⟨t, ht⟩ := (ih ys).mp hsw'.2
        have hxy : x = y := by simpa using hsw'.1
        exact ⟨t, by rw [ht, hxy, List.cons_append]⟩
      · rintro ⟨t, ht⟩
        have hy : y = x ∧ ys = xs ++ t := by simpa using ht
        show (x == y && startsWithComps xs ys) = true
        rw [Bool.and_eq_true]
        exact ⟨by simp [hy.1], (ih ys).mpr ⟨t, hy.2⟩⟩

theorem fsLookup_fsDelete_ne (p q : List String) (h : ¬ q = p) :
    ∀ fs : FileStore, fsLookup (fsDelete fs p) q = fsLookup fs q := by
  intro fs
  induction fs with
  | nil => rfl
  | cons e fs ih =>
    by_cases he : e.1 = p
    · rw [show fsDelete (e :: fs) p = fsDelete fs p by simp [fsDelete, he]]
      rw [ih]
      have : ¬ e.1 = q := by rw [he]; exact fun hh => h hh.symm
      rw [show fsLookup (e :: fs) q = fsLookup fs q by simp [fsLookup, this]]
    · rw [show fsDelete (e :: fs) p = e :: fsDelete fs p by simp [fsDelete, he]]
      by_cases heq : e.1 = q
      · rw [show fsLookup (e :: fsDelete fs p) q = some e.2 by simp [fsLookup, heq]]
        rw [show fsLookup (e :: fs) q = some e.2 by simp [fsLookup, heq]]
      · rw [show fsLookup (e :: fsDelete fs p) q = fsLookup (fsDelete fs p) q by
          simp [fsLookup, heq]]
        rw [show fsLookup (e :: fs) q = fsLookup fs q by simp [fsLookup, heq]]
        exact ih

theorem fsLookup_fsWrite_ne (fs : FileStore) (p q : List String) (c : String)
    (h : ¬ q = p) : fsLookup (fsWrite fs p c) q = fsLookup fs q := by
  have hpq : ¬ p = q := fun hh => h hh.symm
  rw [show fsWrite fs p c = (p, c) :: fsDelete fs p from rfl]
  rw [show fsLookup ((p, c) :: fsDelete fs p) q = fsLookup (fsDelete fs p) q by
    simp [fsLookup, hpq]]
  exact fsLookup_fsDelete_ne p q h fs

theorem fsLookup_fsWrite_self (fs : FileStore) (p : List String) (c : String) :
    fsLookup (fsWrite fs p c) p = some c := by
  simp [fsWrite, fsLookup]

/-- C7: every file operation resolves its path through `_get_safe_path`; a
path that resolves outside the workspace is rejected with the escape error
and the store is untouched (no file read, written or deleted), while an
accepted path lies inside the workspace and the operation touches no path
outside the workspace; an accepted `write` stores its content at the
resolved path. -/
theorem c7_workspace_confinement (ws : List String) (action : FileAction)
    (p : PathArg) (pathText : String) (content : Option String)
    (fs : FileStore) :
    (getSafePath ws p = none →
      fileOpsExecute ws action p pathText content fs
        = (pathEscapeError pathText, fs))
    ∧ (∀ target, getSafePath ws p = some target →
        (∃ rest, target = ws ++ rest)
        ∧ (∀ q, (¬ ∃ r, q = ws ++ r) →
            fsLookup (fileOpsExecute ws action p pathText content fs).2 q
              = fsLookup fs q)
        ∧ (∀ c, content = some c → action = FileAction.write →
            fileOpsExecute ws action p pathText content fs
              = (⟨true, none, none⟩, fsWrite fs target c)
            ∧ fsLookup (fsWrite fs target c) target = some c)) := by
  constructor
  · intro hn
    simp [fileOpsExecute, hn]
  · intro target ht
    have hin : ∃ rest, target = ws ++ rest := by
      have hsw : startsWithComps ws target = true := by
        simp only [getSafePath] at ht
        split at ht
        case isTrue =>
          split at ht
          · rename_i hcond
            have hres := Option.some.inj ht
            rwa [hres] at hcond
          · exact absurd ht (by simp)
        case isFalse =>
          split at ht
          · rename_i hcond
            have hres := Option.some.inj ht
            rwa [hres] at hcond
          · exact absurd ht (by simp)
      exact (startsWithComps_iff ws target).mp hsw
    obtain ⟨rest, hrest⟩ := hin
    refine ⟨⟨rest, hrest⟩, ?_, ?_⟩
    · intro q hq
      have hqt : ¬ q = target := fun hh => hq ⟨rest, by rw [hh, hrest]⟩
      cases action with
      | read =>
        cases hlu : fsLookup fs target <;> simp [fileOpsExecute, ht, hlu]
      | write =>
        cases content with
        | none => simp [fileOpsExecute, ht]
        | some c =>
          simp only [fileOpsExecute, ht]
          exact fsLookup_fsWrite_ne fs target q c hqt
      | append =>
        cases content with
        | none => simp [fileOpsExecute, ht]
        | some c =>
          simp only [fileOpsExecute, ht]
          exact fsLookup_fsWrite_ne fs target q _ hqt
      | listDir => simp [fileOpsExecute, ht]
      | existsCheck => simp [fileOpsExecute, ht]
      | delete =>
        cases hlu : fsLookup fs target with
        | none => simp [fileOpsExecute, ht, hlu]
        | some c =>
          simp only [fileOpsExecute, ht, hlu]
          exact fsLookup_fsDelete_ne target q hqt fs
    · intro c hc ha
      subst ha
      subst hc
      exact ⟨by simp [fileOpsExecute, ht], fsLookup_fsWrite_self fs target c⟩

/-- The workspace root used in the concrete scenario. -/
def wsC7 : List String := ["home", "user", "workspace"]

/-- C7, witness: `"../../etc/passwd"` resolves outside the workspace and is
rejected with the escape error, leaving a one-file store untouched;
`"notes/today.md"` resolves inside the workspace and a write succeeds. -/
theorem c7_witness :
    fileOpsExecute wsC7 FileAction.read ⟨false, ["..", "..", "etc", "passwd"]⟩
        "../../etc/passwd" none [(["home", "user", "workspace", "a.txt"], "x")]
      = (pathEscapeError "../../etc/passwd",
          [(["home", "user", "workspace", "a.txt"], "x")])
    ∧ fileOpsExecute wsC7 FileAction.write ⟨false, ["notes", "today.md"]⟩
        "notes/today.md" (some "plan") []
      = (⟨true, none, none⟩,
          fsWrite [] ["home", "user", "workspace", "notes", "today.md"] "plan") :=
  ⟨(c7_workspace_confinement wsC7 FileAction.read
      ⟨false, ["..", "..", "etc", "passwd"]⟩ "../../etc/passwd" none
      [(["home", "user", "workspace", "a.txt"], "x")]).1 (by decide),
    ((c7_workspace_confinement wsC7 FileAction.write ⟨false, ["notes", "today.md"]⟩
        "notes/today.md" (some "plan") []).2
      ["home", "user", "workspace", "notes", "today.md"] (by decide)).2.2
      "plan" rfl rfl |>.1⟩

/- ============================================================ -/
/- Claim C8                                                     -/
/- ============================================================ -/

theorem string_append4_assoc (a b c d : String) :
    a ++ b ++ c ++ d = a ++ (b ++ c ++ d) := by
  rw [String.append_assoc a b c, String.append_assoc a (b ++ c) d]

/-- C8: with a non-empty tool list, a provider without native tool-calling
gets no `tools` argument and the single user message rewritten by the
prompt injection — the original prompt leads the rewritten message, which
embeds the catalog line of every tool (one line each) and the structured
invocation convention; a native-capable provider gets the prompt untouched
and every tool passed through the function-calling channel with only its
field names normalized. -/
theorem c8_tool_channel_selection (provider model prompt : String)
    (tools : List BrokerToolDef) (maxTokens : Nat) (hne : tools ≠ []) :
    (supportsNativeTools provider = false →
      (buildStreamCallArgs provider model prompt tools maxTokens).nativeTools
          = none
      ∧ (buildStreamCallArgs provider model prompt tools maxTokens).messageContent
          = injectToolsInPrompt prompt tools
      ∧ (∃ rest, injectToolsInPrompt prompt tools = prompt ++ rest)
      ∧ (∃ mid tail, injectToolsInPrompt prompt tools
          = prompt ++ mid ++ String.intercalate "\n" (tools.map toolDescLine)
            ++ tail)
      ∧ (tools.map toolDescLine).length = tools.length)
    ∧ (supportsNativeTools provider = true →
      (buildStreamCallArgs provider model prompt tools maxTokens).messageContent
          = prompt
      ∧ (buildStreamCallArgs provider model prompt tools maxTokens).nativeTools
          = some (convertToolsToProviderFormat tools)
      ∧ (convertToolsToProviderFormat tools).length = tools.length
      ∧ ∀ t ∈ tools, ProviderTool.mk t.name t.description t.paramsRepr
          ∈ convertToolsToProviderFormat tools) := by
  have hne' : (!tools.isEmpty) = true := by
    cases tools with
    | nil => exact absurd rfl hne
    | cons a l => rfl
  constructor
  · intro hns
    have hb : buildStreamCallArgs provider model prompt tools maxTokens
        = ⟨getLitellmModel provider model, injectToolsInPrompt prompt tools,
            none, maxTokens⟩ := by
      unfold buildStreamCallArgs
      rw [if_neg (by simp [hns]), if_pos hne']
    refine ⟨by rw [hb], by rw [hb], ?_, ?_, by simp⟩
    · exact ⟨_, string_append4_assoc prompt _ _ _⟩
    · exact ⟨_, _, rfl⟩
  · intro hns
    have hb : buildStreamCallArgs provider model prompt tools maxTokens
        = ⟨getLitellmModel provider model, prompt,
            some (convertToolsToProviderFormat tools), maxTokens⟩ := by
      unfold buildStreamCallArgs
      rw [if_pos (by simp [hns, hne'])]
    refine ⟨by rw [hb], by rw [hb], by simp [convertToolsToProviderFormat], ?_⟩
    intro t ht
    exact List.mem_map_of_mem _ ht

/-- C8, witness: the theorem applied to a one-tool list, once for `ollama`
(no native tool-calling — prompt rewritten, no tools argument) and once for
`openai` (native — prompt untouched, tools converted). -/
theorem c8_witness :
    (buildStreamCallArgs "ollama" "llama3.2" "Hi"
        [⟨"file_ops", "File tool", "P"⟩] 100).nativeTools = none
    ∧ (buildStreamCallArgs "openai" "gpt-4o" "Hi"
        [⟨"file_ops", "File tool", "P"⟩] 100).messageContent = "Hi"
    ∧ (buildStreamCallArgs "openai" "gpt-4o" "Hi"
        [⟨"file_ops", "File tool", "P"⟩] 100).nativeTools
      = some [⟨"file_ops", "File tool", "P"⟩] :=
  ⟨((c8_tool_channel_selection "ollama" "llama3.2" "Hi"
        [⟨"file_ops", "File tool", "P"⟩] 100 (by simp)).1 rfl).1,
    ((c8_tool_channel_selection "openai" "gpt-4o" "Hi"
        [⟨"file_ops", "File tool", "P"⟩] 100 (by simp)).2 rfl).1,
    ((c8_tool_channel_selection "openai" "gpt-4o" "Hi"
        [⟨"file_ops", "File tool", "P"⟩] 100 (by simp)).2 rfl).2.1⟩
